import Mathlib

/-!
Verification of the redisutil node model, node collection and topology
decoder (package `redis` of kubernetes-app/redisutil), shallowly embedded
in Lean. Go slices become lists, Go maps become association lists with
overwrite-on-insert, fallible Go functions return `Except`/`Option`, and
machine integers become `Int`/`Nat`. The Go standard-library helpers that
the code calls (`strings.Split` with one-character separators,
`net.SplitHostPort`, `strconv.ParseInt`, `sort.Sort`) are modelled by
executable Lean functions defined below.
-/

namespace Redisutil

/-! ### Constants (from the package constants file) -/

def RedisLinkStateConnected : String := "connected"

def RedisLinkStateDisconnected : String := "disconnected"

def NodeStatusPFail : String := "fail?"

def NodeStatusFail : String := "fail"

def NodeStatusHandshake : String := "handshake"

def NodeStatusNoAddr : String := "noaddr"

def NodeStatusNoFlags : String := "noflags"

def DefaultRedisPort : String := "6379"

def RedisMasterRole : String := "master"

def RedisSlaveRole : String := "slave"

/-- Modelled from the spec: the `Slot` type (its defining file is not under
src/). "Slot — an integer shard identifier in [0, maxSlot]"; we use `Nat`. -/
abbrev Slot := Nat

/-! ### Go library helpers -/

/-- Model of Go `strings.Split(s, sep)` for a one-character separator
(every separator used by this package — "\n", " ", ",", ":", "@" — is a
single character): splits around each occurrence of `sep`, keeping empty
fields, and returns `[s]` when `sep` does not occur. -/
def splitOnChar (sep : Char) : List Char → List (List Char)
  | [] => [[]]
  | c :: cs =>
    match splitOnChar sep cs with
    | [] => if c = sep then [[], []] else [[c]]
    | w :: ws => if c = sep then [] :: w :: ws else (c :: w) :: ws

/-- Source `strings.Split` on `String`, via `splitOnChar`. -/
def goSplit (s : String) (sep : Char) : List String :=
  (splitOnChar sep s.toList).map (fun cs => String.mk cs)

/-- Index of the last occurrence of `c`, if any (helper for the
`net.SplitHostPort` model). -/
def lastIdxOf (c : Char) (cs : List Char) : Option Nat :=
  match cs with
  | [] => none
  | x :: xs =>
    match lastIdxOf c xs with
    | some i => some (i + 1)
    | none => if x = c then some 0 else none

/-- Model of Go `net.SplitHostPort`: splits `host:port` at the last colon.
Errors (`none`) when there is no colon, when an unbracketed host contains a
colon (too many colons), when brackets are misplaced, or when a bracketed
host is not immediately followed by `:port`. -/
def splitHostPort (cs : List Char) : Option (List Char × List Char) :=
  match lastIdxOf ':' cs with
  | none => none
  | some i =>
    let port := cs.drop (i + 1)
    if '[' ∈ port ∨ ']' ∈ port then none
    else
      match cs with
      | '[' :: rest =>
        match lastIdxOf ']' ('[' :: rest) with
        | none => none
        | some e =>
          -- the last colon must come right after the closing bracket
          if i = e + 1 then
            let host := (('[' :: rest).take e).drop 1
            some (host, port)
          else none
      | _ =>
        let host := cs.take i
        if ':' ∈ host ∨ '[' ∈ host ∨ ']' ∈ host then none
        else some (host, port)

/-- Numeric value of a digit run (helper for the `strconv.ParseInt` and
size-suffix models). -/
def digitsVal (cs : List Char) : Nat :=
  cs.foldl (fun acc c => acc * 10 + (c.toNat - 48)) 0

/-- Model of Go `strconv.ParseInt(s, 10, 64)`: optional sign, at least one
digit, all characters digits, result within int64 range. -/
def parseInt64 (s : String) : Option Int :=
  let signed : Bool × List Char :=
    match s.toList with
    | '-' :: rest => (true, rest)
    | '+' :: rest => (false, rest)
    | cs => (false, cs)
  let neg := signed.1
  let ds := signed.2
  if ds = [] ∨ ¬ ds.all (·.isDigit) then none
  else
    let n := digitsVal ds
    if neg then
      if n ≤ 2 ^ 63 then some (-(n : Int)) else none
    else
      if n ≤ 2 ^ 63 - 1 then some (n : Int) else none

/-! ### The Node model (node.go) -/

/-- Source `Node` represents a Redis node. `ServerStartTime` (a `time.Time`) and
`Pod` (a Kubernetes API back-reference) are not modelled: no claim touches
them and they carry no logic in this package. Go maps `MigratingSlots` and
`ImportingSlots` are modelled as association lists with overwrite
semantics. -/
structure Node where
  ID : String := ""
  IP : String := ""
  Port : String := ""
  Role : String := ""
  LinkState : String := ""
  MasterReferent : String := ""
  FailStatus : List String := []
  PingSent : Int := 0
  PongRecv : Int := 0
  ConfigEpoch : Int := 0
  Slots : List Slot := []
  MigratingSlots : List (Slot × String) := []
  ImportingSlots : List (Slot × String) := []
deriving Repr, DecidableEq

/-- Source `Nodes` represents a Node slice. -/
abbrev Nodes := List Node

/-- Source `NewDefaultNode` builds and returns a new default Node instance. -/
def NewDefaultNode : Node :=
  { Port := DefaultRedisPort
    Slots := []
    MigratingSlots := []
    ImportingSlots := [] }

/-- Source `Node.SetRole`: reset the role, then scan the comma-separated flags,
keeping the last recognized role flag. -/
def Node.SetRole (n : Node) (flags : String) : Node :=
  let role := (goSplit flags ',').foldl
    (fun r val =>
      if val = RedisMasterRole then RedisMasterRole
      else if val = RedisSlaveRole then RedisSlaveRole
      else r)
    ""  -- reset value before setting the new one
  { n with Role := role }

/-- Source `Node.GetRole` returns the Redis role: the explicit role when master or
slave, otherwise inferred from `MasterReferent` and `Slots`. -/
def Node.GetRole (n : Node) : String :=
  if n.Role = RedisMasterRole then RedisMasterRole
  else if n.Role = RedisSlaveRole then RedisSlaveRole
  else if n.MasterReferent ≠ "" then RedisSlaveRole
  else if 0 < n.Slots.length then RedisMasterRole
  else "none"

/-- Source `Node.SetLinkStatus`: reset the link state, then apply the recognized
status, an unrecognized status leaving it cleared. -/
def Node.SetLinkStatus (n : Node) (status : String) : Node :=
  let state :=
    if status = RedisLinkStateConnected then RedisLinkStateConnected
    else if status = RedisLinkStateDisconnected then RedisLinkStateDisconnected
    else ""  -- reset value before setting the new one
  { n with LinkState := state }

/-- The switch cases of `Node.SetFailureStatus`. -/
def isFailFlag (val : String) : Bool :=
  val = NodeStatusFail ∨ val = NodeStatusPFail ∨ val = NodeStatusHandshake ∨
    val = NodeStatusNoAddr ∨ val = NodeStatusNoFlags

/-- Source `Node.SetFailureStatus`: reset the status list, then append every
comma-separated flag that matches one of the recognized failure flags, in
input order. -/
def Node.SetFailureStatus (n : Node) (flags : String) : Node :=
  { n with FailStatus := (goSplit flags ',').filter isFailFlag }

/-- Source `Node.SetReferentMaster`: the "-" sentinel maps to the empty referent. -/
def Node.SetReferentMaster (n : Node) (ref : String) : Node :=
  if ref = "-" then { n with MasterReferent := "" }
  else { n with MasterReferent := ref }

/-- Source `Node.TotalSlots` returns the number of owned slots. -/
def Node.TotalSlots (n : Node) : Nat := n.Slots.length

/-- Source `Node.HasStatus`: membership test on the failure status list. -/
def Node.HasStatus (n : Node) (flag : String) : Bool :=
  n.FailStatus.any (· = flag)

/-! ### Errors -/

/-- The package's error values. -/
inductive RedisError where
  | nodeNotFounded
deriving Repr, DecidableEq

instance {ε α : Type} [DecidableEq ε] [DecidableEq α] :
    DecidableEq (Except ε α) := fun a b =>
  match a, b with
  | .error e₁, .error e₂ =>
    if h : e₁ = e₂ then .isTrue (by rw [h]) else .isFalse (by simp [h])
  | .error _, .ok _ => .isFalse (by simp)
  | .ok _, .error _ => .isFalse (by simp)
  | .ok x, .ok y =>
    if h : x = y then .isTrue (by rw [h]) else .isFalse (by simp [h])

/-- Modelled from the spec: the NotFound error value (`nodeNotFoundedError`,
whose defining file is not under src/): "a lookup found zero matching
nodes". -/
def nodeNotFoundedError : RedisError := .nodeNotFounded

/-! ### Node collection operations (node.go) -/

/-- Source `Nodes.GetNodesByFunc` accumulates the nodes satisfying `f` and fails
with `nodeNotFoundedError` when none matched. -/
def Nodes.GetNodesByFunc (n : Nodes) (f : Node → Bool) : Except RedisError Nodes :=
  let nodes := n.foldl (fun acc node => if f node then acc ++ [node] else acc) []
  if nodes.length = 0 then .error nodeNotFoundedError else .ok nodes

/-- Source `Nodes.GetNodeByID` returns the first node whose `ID` equals `id`,
erring when absent. -/
def Nodes.GetNodeByID (n : Nodes) (id : String) : Except RedisError Node :=
  match n with
  | [] => .error nodeNotFoundedError
  | node :: rest =>
    if node.ID = id then .ok node else Nodes.GetNodeByID rest id

/-- Source `Nodes.GetNodeByMasterID` returns the first node whose `MasterReferent`
equals `id`, erring when absent. -/
def Nodes.GetNodeByMasterID (n : Nodes) (id : String) : Except RedisError Node :=
  match n with
  | [] => .error nodeNotFoundedError
  | node :: rest =>
    if node.MasterReferent = id then .ok node
    else Nodes.GetNodeByMasterID rest id

/-- Source `Nodes.CountByFunc` counts the nodes satisfying `fn`. -/
def Nodes.CountByFunc (n : Nodes) (fn : Node → Bool) : Nat :=
  n.foldl (fun result v => if fn v then result + 1 else result) 0

/-- Source `Nodes.FilterByFunc` accumulates the nodes satisfying `fn` into a new
slice; it never fails. -/
def Nodes.FilterByFunc (n : Nodes) (fn : Node → Bool) : Nodes :=
  n.foldl (fun newSlice node => if fn node then newSlice ++ [node] else newSlice) []

/-! ### Sorting (node.go) -/

/-- Insert into a list sorted by the non-strict order `le`, before the first
element not below the inserted one. -/
def insertSorted (le : Node → Node → Bool) (x : Node) : Nodes → Nodes
  | [] => [x]
  | y :: ys => if le x y then x :: y :: ys else y :: insertSorted le x ys

/-- Insertion sort by the non-strict order `le`. -/
def insertionSort (le : Node → Node → Bool) : Nodes → Nodes
  | [] => []
  | x :: xs => insertSorted le x (insertionSort le xs)

/-- Model of Go `sort.Sort` on a `sort.Interface` whose `Less` is the strict
comparison `less`: the slice is rearranged into non-decreasing order for
the induced non-strict order `fun a b => !less b a`. We model it with an
insertion sort, one admissible comparison sort. -/
def goSortSort (less : Node → Node → Bool) (n : Nodes) : Nodes :=
  insertionSort (fun a b => !(less b a)) n

/-- Lexicographic strict comparison on character lists. Go compares strings
byte-wise on their UTF-8 encodings; UTF-8 preserves code-point order, so
comparing code points is equivalent. -/
def charListLt : List Char → List Char → Bool
  | [], [] => false
  | [], _ :: _ => true
  | _ :: _, [] => false
  | a :: as, b :: bs =>
    if a.toNat < b.toNat then true
    else if b.toNat < a.toNat then false
    else charListLt as bs

/-- Model of Go's `<` on strings. -/
def goStringLt (a b : String) : Bool := charListLt a.toList b.toList

/-- Source `Nodes.Less`: the collection's own ordering, strict comparison of IDs
(`n[i].ID < n[j].ID`). -/
def Nodes.nodeLess (n1 n2 : Node) : Bool := goStringLt n1.ID n2.ID

/-- Source `LessByID` compares 2 Nodes by their ID, ascending. -/
def LessByID (n1 n2 : Node) : Bool := goStringLt n1.ID n2.ID

/-- Source `MoreByID` compares 2 Nodes by their ID, descending. -/
def MoreByID (n1 n2 : Node) : Bool := goStringLt n2.ID n1.ID

/-- Source `Nodes.SortNodes` sorts the receiver in place with the collection's own
`Less` (ascending ID) and returns it; the model returns the sorted list. -/
def Nodes.SortNodes (n : Nodes) : Nodes :=
  goSortSort Nodes.nodeLess n

/-- Source `Nodes.SortByFunc` allocates `result`, copies the receiver into it,
then runs `by(less).Sort` on the receiver `n` itself — not on the copy —
and returns the copy. The model returns the pair
(returned slice, receiver contents after the call). -/
def Nodes.SortByFunc (n : Nodes) (less : Node → Node → Bool) : Nodes × Nodes :=
  let result := n        -- result := make(...); copy(result, n)
  let receiver := goSortSort less n  -- by(less).Sort(n)
  (result, receiver)

/-! ### Config handling (admin.go) -/

/-- The keys of `parseConfigMap`: the recognized memory-size-valued
configuration keys. -/
def parseConfigMapKeys : List String :=
  ["maxmemory", "proto-max-bulk-len", "client-query-buffer-limit",
   "repl-backlog-size", "auto-aof-rewrite-min-size",
   "active-defrag-ignore-bytes", "hash-max-ziplist-entries",
   "hash-max-ziplist-value", "stream-node-max-bytes",
   "set-max-intset-entries", "zset-max-ziplist-entries",
   "zset-max-ziplist-value", "hll-sparse-max-bytes"]

/-- Lower-case a letter (helper for the size-suffix model). -/
def lowerChar (c : Char) : Char :=
  if 'A' ≤ c ∧ c ≤ 'Z' then Char.ofNat (c.toNat + 32) else c

/-- Modelled from the spec: `utils.ParseRedisMemConf` (package `utils`, not
under src/), the "human-readable-size-to-byte-count normalizer": a digit
run with an optional byte-size suffix is converted to its byte count in
decimal; anything else is an unparseable size value, reported as an
error. -/
def ParseRedisMemConf (value : String) : Except String String :=
  let cs := value.toList
  let ds := cs.takeWhile (·.isDigit)
  let suffix := (cs.dropWhile (·.isDigit)).map lowerChar
  if ds = [] then .error "invalid size value"
  else
    let n := digitsVal ds
    match suffix with
    | [] => .ok (Nat.repr n)
    | ['b'] => .ok (Nat.repr n)
    | ['k'] => .ok (Nat.repr (n * 1000))
    | ['k', 'b'] => .ok (Nat.repr (n * 1024))
    | ['m'] => .ok (Nat.repr (n * 1000000))
    | ['m', 'b'] => .ok (Nat.repr (n * 1048576))
    | ['g'] => .ok (Nat.repr (n * 1000000000))
    | ['g', 'b'] => .ok (Nat.repr (n * 1073741824))
    | _ => .error "invalid size suffix"

/-- The body of `Admin.SetConfigIfNeed`'s per-master loop, assuming every
`ConfigSet` round-trip succeeds: the sequence of (key, value) pairs handed
to `ConfigSet`, in iteration order. In the source, the statement
`value, err := utils.ParseRedisMemConf(value)` inside the `if` block
declares a new inner `value` that shadows the loop variable; the inner
variable dies at the end of the block, so `ConfigSet` receives the loop's
original `value`. The parse therefore only acts as a validity gate: an
unparseable value skips the key (`continue`), a parseable one is sent in
its original, unnormalized form. -/
def setConfigCommands (newConfig : List (String × String)) : List (String × String) :=
  newConfig.foldl
    (fun cmds kv =>
      let key := kv.1
      let value := kv.2
      if key ∈ parseConfigMapKeys then
        match ParseRedisMemConf value with
        | .error _ => cmds                -- klog.Errorf(...); continue
        | .ok _ => cmds ++ [(key, value)] -- inner value out of scope here
      else cmds ++ [(key, value)])
    []

/-! ### Decoders (node.go) -/

/-- Go map assignment `m[k] = v` on an association-list model: overwrite
the existing binding, or append a new one. -/
def mapInsert (m : List (String × String)) (k v : String) : List (String × String) :=
  if m.any (fun p => p.1 = k) then
    m.map (fun p => if p.1 = k then (k, v) else p)
  else m ++ [(k, v)]

/-- Source `DecodeClusterInfos` decodes the raw CLUSTER INFO text into a
string-to-string map: each line is split on every ':', lines with fewer
than two fragments are skipped, and otherwise fragment 0 is bound to
fragment 1. -/
def DecodeClusterInfos (input : String) : List (String × String) :=
  (goSplit input '\n').foldl
    (fun clusterInfo line =>
      let values := goSplit line ':'
      if values.length < 2 then clusterInfo
      else mapInsert clusterInfo (values.getD 0 "") (values.getD 1 ""))
    []

/-- The spec's words for the status decoder, for comparison with
`DecodeClusterInfos`: "first colon is the delimiter (value may itself be
empty or contain further colons — only split on the first occurrence)";
lines without a ':' are skipped. -/
def decodeClusterInfosFirstColon (input : String) : List (String × String) :=
  (goSplit input '\n').foldl
    (fun clusterInfo line =>
      let cs := line.toList
      if ':' ∈ cs then
        let key := cs.takeWhile (· ≠ ':')
        let rest := (cs.dropWhile (· ≠ ':')).drop 1
        mapInsert clusterInfo (String.mk key) (String.mk rest)
      else clusterInfo)
    []

/-- The amended reading of the status decoder: key is the text before the
first colon, value is the text between the first and the second colon
(anything after a second colon is dropped); lines without a ':' are
skipped. -/
def decodeClusterInfosSecondColon (input : String) : List (String × String) :=
  (goSplit input '\n').foldl
    (fun clusterInfo line =>
      let cs := line.toList
      if ':' ∈ cs then
        let key := cs.takeWhile (· ≠ ':')
        let rest := (cs.dropWhile (· ≠ ':')).drop 1
        let val := rest.takeWhile (· ≠ ':')
        mapInsert clusterInfo (String.mk key) (String.mk val)
      else clusterInfo)
    []

/-- A migration marker decoded from a slot-range token. -/
structure MigrationSlot where
  SlotID : Slot
  NodeID : String
deriving Repr, DecidableEq

/-- Go map assignment on the `Slot`-keyed migration maps. -/
def slotMapInsert (m : List (Slot × String)) (k : Slot) (v : String) :
    List (Slot × String) :=
  if m.any (fun p => p.1 = k) then
    m.map (fun p => if p.1 = k then (k, v) else p)
  else m ++ [(k, v)]

/-- Modelled from the spec: `DecodeSlotRange` (slot-range token decoder,
whose defining file is not under src/). Grammar per the spec: `"N"` is a
single owned slot, `"N-M"` a contiguous owned range N..M inclusive,
`"[N->-<nodeID>]"` slot N migrating to nodeID, `"[N-<-<nodeID>]"` slot N
importing from nodeID; malformed tokens fail with a parse error. Returns
(owned slots, importing marker, migrating marker). -/
def DecodeSlotRange (tok : String) :
    Option (List Slot × Option MigrationSlot × Option MigrationSlot) :=
  match tok.toList with
  | '[' :: rest =>
    match rest.getLast? with
    | some ']' =>
      let body := rest.dropLast
      let ds := body.takeWhile (·.isDigit)
      let after := body.dropWhile (·.isDigit)
      if ds = [] then none
      else
        match after with
        | '-' :: '>' :: '-' :: id =>
          some ([], none, some ⟨digitsVal ds, String.mk id⟩)
        | '-' :: '<' :: '-' :: id =>
          some ([], some ⟨digitsVal ds, String.mk id⟩, none)
        | _ => none
    | _ => none
  | cs =>
    let ds := cs.takeWhile (·.isDigit)
    let after := cs.dropWhile (·.isDigit)
    if ds = [] then none
    else
      match after with
      | [] => some ([digitsVal ds], none, none)
      | '-' :: ds2 =>
        if ds2 ≠ [] ∧ ds2.all (·.isDigit) then
          let lo := digitsVal ds
          let hi := digitsVal ds2
          if lo ≤ hi then some (List.range' lo (hi - lo + 1), none, none)
          else none
        else none
      | _ => none

/-- One slot-range token applied to the node being built: a decoded token
appends its owned slots and records its importing/migrating markers, and a
malformed token leaves the node unchanged. -/
def applySlotToken (node : Node) (slot : String) : Node :=
  match DecodeSlotRange slot with
  | some (s, importing, migrating) =>
    let node := { node with Slots := node.Slots ++ s }
    let node :=
      match importing with
      | some m => { node with
          ImportingSlots := slotMapInsert node.ImportingSlots m.SlotID m.NodeID }
      | none => node
    match migrating with
    | some m => { node with
        MigratingSlots := slotMapInsert node.MigratingSlots m.SlotID m.NodeID }
    | none => node
  | none => node

/-- The per-line body of `DecodeNodeInfos` for a line that has at least 8
space-separated values: build a default node, then populate it field by
field, each parse failure leaving the corresponding default in place. -/
def buildNode (values : List String) : Node :=
  let node := { NewDefaultNode with ID := values.getD 0 "" }
  -- remove trailing port for cluster internal protocol
  let ipPort := goSplit (values.getD 1 "") '@'
  let node :=
    match splitHostPort (ipPort.getD 0 "").toList with
    | some (ip, port) => { node with IP := String.mk ip, Port := String.mk port }
    | none => node  -- klog.Errorf(...): address kept empty
  let node := node.SetRole (values.getD 2 "")
  let node := node.SetFailureStatus (values.getD 2 "")
  let node := node.SetReferentMaster (values.getD 3 "")
  let node :=
    match parseInt64 (values.getD 4 "") with
    | some i => { node with PingSent := i }
    | none => node
  let node :=
    match parseInt64 (values.getD 5 "") with
    | some i => { node with PongRecv := i }
    | none => node
  let node :=
    match parseInt64 (values.getD 6 "") with
    | some i => { node with ConfigEpoch := i }
    | none => node
  let node := node.SetLinkStatus (values.getD 7 "")
  (values.drop 8).foldl applySlotToken node

/-- One line of `DecodeNodeInfos`: lines with fewer than 8 space-separated
values yield no node, the rest are decoded by `buildNode`. -/
def decodeNodeLine (line : String) : Option Node :=
  let values := goSplit line ' '
  if values.length < 8 then none else some (buildNode values)

/-- Source `DecodeNodeInfos` decodes the raw CLUSTER NODES text, one node per
qualifying line, in line order. -/
def DecodeNodeInfos (input : String) : Nodes :=
  (goSplit input '\n').foldl
    (fun nodes line =>
      match decodeNodeLine line with
      | some node => nodes ++ [node]
      | none => nodes)
    []

/-- Join strings with a one-character separator (left inverse of `goSplit`
on separator-free fragments; used to build decoder inputs line by line). -/
def joinSep (sep : Char) : List String → String
  | [] => ""
  | [s] => s
  | s :: rest => s ++ String.mk [sep] ++ joinSep sep rest


theorem char_lt_iff (a b : Char) : a < b ↔ a.toNat < b.toNat := Iff.rfl

theorem charListLt_asymm : ∀ (a b : List Char),
    charListLt a b = true → charListLt b a = false
  | [], [] => by simp [charListLt]
  | [], _ :: _ => by simp [charListLt]
  | _ :: _, [] => by simp [charListLt]
  | a :: as, b :: bs => by
    intro h
    simp only [charListLt] at h ⊢
    rcases Nat.lt_trichotomy a.toNat b.toNat with hab | hab | hab
    · rw [if_neg (by omega), if_pos hab]
    · rw [if_neg (by omega), if_neg (by omega)] at h ⊢
      exact charListLt_asymm as bs h
    · rw [if_neg (by omega), if_pos hab] at h
      cases h

theorem charListLt_negtrans : ∀ (a b c : List Char),
    charListLt b a = false → charListLt c b = false → charListLt c a = false
  | [], _, c => by
    intro _ _
    cases c <;> rfl
  | _ :: _, [], _ => by
    intro h1 _
    simp [charListLt] at h1
  | _ :: _, _ :: _, [] => by
    intro _ h2
    simp [charListLt] at h2
  | a :: as, b :: bs, c :: cs => by
    intro h1 h2
    simp only [charListLt] at h1 h2 ⊢
    rcases Nat.lt_trichotomy b.toNat a.toNat with hba | hba | hba
    · rw [if_pos hba] at h1
      cases h1
    · rcases Nat.lt_trichotomy c.toNat b.toNat with hcb | hcb | hcb
      · rw [if_pos hcb] at h2
        cases h2
      · rw [if_neg (by omega), if_neg (by omega)] at h1 h2 ⊢
        exact charListLt_negtrans as bs cs h1 h2
      · rw [if_neg (by omega), if_pos (by omega)]
    · rcases Nat.lt_trichotomy c.toNat b.toNat with hcb | hcb | hcb
      · rw [if_pos hcb] at h2
        cases h2
      · rw [if_neg (by omega), if_pos (by omega)]
      · rw [if_neg (by omega), if_pos (by omega)]

theorem charListLt_iff_lex : ∀ (a b : List Char),
    charListLt a b = true ↔ List.Lex (· < ·) a b
  | [], [] => by
    simp only [charListLt, Bool.false_eq_true, false_iff]
    intro h
    cases h
  | [], b :: bs => by
    simp only [charListLt, true_iff]
    exact List.Lex.nil
  | a :: as, [] => by
    simp only [charListLt, Bool.false_eq_true, false_iff]
    intro h
    cases h
  | a :: as, b :: bs => by
    constructor
    · intro h
      simp only [charListLt] at h
      rcases lt_trichotomy a b with hab | hab | hab
      · exact List.Lex.rel hab
      · subst hab
        rw [if_neg (by omega), if_neg (by omega)] at h
        exact List.Lex.cons ((charListLt_iff_lex as bs).1 h)
      · have hba := (char_lt_iff b a).1 hab
        rw [if_neg (by omega), if_pos hba] at h
        cases h
    · intro h
      simp only [charListLt]
      cases h with
      | rel hab => rw [if_pos ((char_lt_iff a b).1 hab)]
      | cons htl =>
        rw [if_neg (by omega), if_neg (by omega)]
        exact (charListLt_iff_lex as bs).2 htl

theorem goStringLt_iff (a b : String) : goStringLt a b = true ↔ a < b := by
  rw [String.lt_iff_toList_lt]
  show charListLt a.toList b.toList = true ↔ List.Lex (· < ·) a.toList b.toList
  exact charListLt_iff_lex _ _

theorem not_goStringLt_iff (a b : String) : goStringLt a b = false ↔ b ≤ a := by
  rw [← Bool.not_eq_true, goStringLt_iff, not_lt]


theorem mem_insertSorted (le : Node → Node → Bool) (x : Node) :
    ∀ (l : Nodes) (z : Node), z ∈ insertSorted le x l ↔ z = x ∨ z ∈ l
  | [], z => by simp [insertSorted]
  | y :: ys, z => by
    simp only [insertSorted]
    split
    · simp only [List.mem_cons]
    · simp only [List.mem_cons, mem_insertSorted le x ys z]
      tauto

theorem sorted_insertSorted (le : Node → Node → Bool)
    (htot : ∀ a b, le a b = false → le b a = true)
    (htrans : ∀ a b c, le a b = true → le b c = true → le a c = true)
    (x : Node) :
    ∀ (l : Nodes), List.Pairwise (fun a b => le a b = true) l →
      List.Pairwise (fun a b => le a b = true) (insertSorted le x l)
  | [], _ => by simp [insertSorted]
  | y :: ys, hp => by
    rcases List.pairwise_cons.1 hp with ⟨hy, hys⟩
    simp only [insertSorted]
    split
    case isTrue hxy =>
      refine List.pairwise_cons.2 ⟨?_, hp⟩
      intro z hz
      rcases List.mem_cons.1 hz with rfl | hz
      · exact hxy
      · exact htrans x y z hxy (hy z hz)
    case isFalse hxy =>
      refine List.pairwise_cons.2
        ⟨?_, sorted_insertSorted le htot htrans x ys hys⟩
      intro z hz
      rcases (mem_insertSorted le x ys z).1 hz with rfl | hz
      · exact htot _ y (by simpa using hxy)
      · exact hy z hz

theorem sorted_insertionSort (le : Node → Node → Bool)
    (htot : ∀ a b, le a b = false → le b a = true)
    (htrans : ∀ a b c, le a b = true → le b c = true → le a c = true) :
    ∀ (l : Nodes), List.Pairwise (fun a b => le a b = true) (insertionSort le l)
  | [] => by simp [insertionSort]
  | x :: xs =>
    sorted_insertSorted le htot htrans x (insertionSort le xs)
      (sorted_insertionSort le htot htrans xs)

theorem insertionSort_of_sorted (le : Node → Node → Bool) :
    ∀ (l : Nodes), List.Pairwise (fun a b => le a b = true) l →
      insertionSort le l = l
  | [], _ => rfl
  | x :: xs, hp => by
    rcases List.pairwise_cons.1 hp with ⟨hx, hxs⟩
    simp only [insertionSort]
    rw [insertionSort_of_sorted le xs hxs]
    cases xs with
    | nil => rfl
    | cons y ys =>
      simp only [insertSorted]
      rw [if_pos (hx y (by simp))]

theorem nodeLe_tot (a b : Node) :
    (!Nodes.nodeLess b a) = false → (!Nodes.nodeLess a b) = true := by
  rw [Bool.not_eq_false', Bool.not_eq_true']
  exact charListLt_asymm _ _

theorem nodeLe_trans (a b c : Node) :
    (!Nodes.nodeLess b a) = true → (!Nodes.nodeLess c b) = true →
      (!Nodes.nodeLess c a) = true := by
  simp only [Bool.not_eq_true']
  exact charListLt_negtrans _ _ _

theorem sortNodes_pairwise (n : Nodes) :
    List.Pairwise (fun a b => (!Nodes.nodeLess b a) = true) n.SortNodes :=
  sorted_insertionSort _ nodeLe_tot nodeLe_trans n

/-- Claim C6: the result of `SortNodes` is non-decreasing by node ID, and sorting
is idempotent: sorting an already sorted collection leaves it unchanged. -/
theorem sortNodes_sorted_idempotent (n : Nodes) :
    List.Sorted (fun a b : Node => a.ID ≤ b.ID) n.SortNodes
    ∧ n.SortNodes.SortNodes = n.SortNodes := by
  constructor
  · refine (sortNodes_pairwise n).imp ?_
    intro a b h
    rw [Bool.not_eq_true'] at h
    exact (not_goStringLt_iff b.ID a.ID).1 h
  · exact insertionSort_of_sorted _ _ (sortNodes_pairwise n)

/-- Claim C1 (divergence witness): `SortByFunc` returns the copy taken before
sorting — the original, unsorted order — while the receiver itself ends up
sorted; the returned collection is not ordered by the comparator. -/
theorem sortByFunc_returns_unsorted_copy :
    (Nodes.SortByFunc [{ NewDefaultNode with ID := "b" },
        { NewDefaultNode with ID := "a" }] LessByID).1
      = [{ NewDefaultNode with ID := "b" }, { NewDefaultNode with ID := "a" }]
    ∧ LessByID { NewDefaultNode with ID := "a" } { NewDefaultNode with ID := "b" } = true
    ∧ (Nodes.SortByFunc [{ NewDefaultNode with ID := "b" },
        { NewDefaultNode with ID := "a" }] LessByID).2
      = [{ NewDefaultNode with ID := "a" }, { NewDefaultNode with ID := "b" }] := by
  refine ⟨by decide, by decide, by decide⟩

theorem foldl_filter_aux (f : Node → Bool) :
    ∀ (l : Nodes) (acc : Nodes),
      l.foldl (fun a node => if f node then a ++ [node] else a) acc
        = acc ++ l.filter f
  | [], acc => by simp
  | x :: xs, acc => by
    simp only [List.foldl_cons, List.filter_cons]
    by_cases h : f x
    · rw [if_pos h, if_pos h, foldl_filter_aux f xs (acc ++ [x]),
        List.append_assoc, List.singleton_append]
    · rw [if_neg h, if_neg (by simp [h]), foldl_filter_aux f xs acc]

theorem getNodeByID_error_iff : ∀ (n : Nodes) (id : String),
    Nodes.GetNodeByID n id = .error nodeNotFoundedError ↔ ∀ node ∈ n, node.ID ≠ id
  | [], id => by simp [Nodes.GetNodeByID]
  | x :: xs, id => by
    simp only [Nodes.GetNodeByID]
    by_cases h : x.ID = id
    · simp [h]
    · simp [h, getNodeByID_error_iff xs id]

/-- Claim C5: `GetNodesByFunc` errs with NotFound exactly when no node matches,
`GetNodeByID` errs with NotFound exactly when no node has the given ID (in
particular on the empty collection), and `FilterByFunc` is total, returning
the plain filter — empty, with no error, when nothing matches. -/
theorem find_notFound_filter_total (n : Nodes) (f : Node → Bool) (id : String) :
    (n.GetNodesByFunc f = .error nodeNotFoundedError ↔ n.filter f = [])
    ∧ (∀ nodes, n.GetNodesByFunc f = .ok nodes → nodes = n.filter f ∧ nodes ≠ [])
    ∧ (n.GetNodeByID id = .error nodeNotFoundedError ↔ ∀ node ∈ n, node.ID ≠ id)
    ∧ Nodes.GetNodeByID [] id = .error nodeNotFoundedError
    ∧ n.FilterByFunc f = n.filter f
    ∧ (n.FilterByFunc f = [] ↔ ∀ node ∈ n, f node = false) := by
  have hfold := foldl_filter_aux f n []
  rw [List.nil_append] at hfold
  refine ⟨?_, ?_, getNodeByID_error_iff n id, by simp [Nodes.GetNodeByID], ?_, ?_⟩
  · unfold Nodes.GetNodesByFunc
    rw [hfold]
    by_cases hf : n.filter f = []
    · simp [hf]
    · simp [hf, List.length_eq_zero]
  · intro nodes hok
    unfold Nodes.GetNodesByFunc at hok
    rw [hfold] at hok
    by_cases hf : (n.filter f).length = 0
    · rw [if_pos hf] at hok
      cases hok
    · rw [if_neg hf] at hok
      cases hok
      exact ⟨rfl, by simpa [← List.length_eq_zero] using hf⟩
  · unfold Nodes.FilterByFunc
    rw [hfold]
  · unfold Nodes.FilterByFunc
    rw [hfold]
    simp [List.filter_eq_nil_iff]

/-- Witness for claim C5. -/
theorem find_notFound_filter_total_witness :
    Nodes.GetNodeByID [] "a" = .error nodeNotFoundedError
    ∧ Nodes.FilterByFunc [] (fun _ => true) = [] :=
  ⟨(find_notFound_filter_total [] (fun _ => true) "a").2.2.2.1,
   by
    have h := (find_notFound_filter_total [] (fun _ => true) "a").2.2.2.2.1
    simpa using h⟩


/-- Claim C7: `GetRole` returns the explicit role when it is master or slave;
otherwise it infers slave from a non-empty `MasterReferent`, master from at
least one owned slot with no referent, and "none" when neither holds. -/
theorem getRole_explicit_or_inferred (n : Node) :
    (n.Role = RedisMasterRole → n.GetRole = RedisMasterRole)
    ∧ (n.Role = RedisSlaveRole → n.GetRole = RedisSlaveRole)
    ∧ (n.Role ≠ RedisMasterRole → n.Role ≠ RedisSlaveRole →
        n.MasterReferent ≠ "" → n.GetRole = RedisSlaveRole)
    ∧ (n.Role ≠ RedisMasterRole → n.Role ≠ RedisSlaveRole →
        n.MasterReferent = "" → 0 < n.Slots.length → n.GetRole = RedisMasterRole)
    ∧ (n.Role ≠ RedisMasterRole → n.Role ≠ RedisSlaveRole →
        n.MasterReferent = "" → n.Slots = [] → n.GetRole = "none") := by
  unfold Node.GetRole
  refine ⟨?_, ?_, ?_, ?_, ?_⟩ <;> intros <;> simp_all

/-- Witness for claim C7: the five cases at concrete nodes. -/
theorem getRole_explicit_or_inferred_witness :
    ({ NewDefaultNode with Role := "master" } : Node).GetRole = "master"
    ∧ ({ NewDefaultNode with Role := "slave" } : Node).GetRole = "slave"
    ∧ ({ NewDefaultNode with MasterReferent := "m1" } : Node).GetRole = "slave"
    ∧ ({ NewDefaultNode with Slots := [0] } : Node).GetRole = "master"
    ∧ (NewDefaultNode : Node).GetRole = "none" :=
  ⟨(getRole_explicit_or_inferred _).1 (by decide),
   (getRole_explicit_or_inferred _).2.1 (by decide),
   (getRole_explicit_or_inferred _).2.2.1 (by decide) (by decide) (by decide),
   (getRole_explicit_or_inferred _).2.2.2.1 (by decide) (by decide) (by decide)
     (by decide),
   (getRole_explicit_or_inferred _).2.2.2.2 (by decide) (by decide) (by decide)
     (by decide)⟩

theorem setRole_foldl_unrecognized :
    ∀ (l : List String) (r : String),
      (∀ v ∈ l, v ≠ RedisMasterRole ∧ v ≠ RedisSlaveRole) →
      l.foldl (fun r val =>
        if val = RedisMasterRole then RedisMasterRole
        else if val = RedisSlaveRole then RedisSlaveRole else r) r = r
  | [], _, _ => rfl
  | v :: vs, r, h => by
    have hv := h v (by simp)
    simp only [List.foldl_cons, if_neg hv.1, if_neg hv.2]
    exact setRole_foldl_unrecognized vs r fun w hw => h w (by simp [hw])

/-- Claim C8: the role and link-state setters reset the field before applying the
recognized flags, so a flags string with no recognized value clears the
field whatever was set before; in particular `SetRole "myself,slave"`
followed by `SetRole "king"` leaves the role empty. -/
theorem setters_reset_before_applying (n m : Node) (flags status : String) :
    ((∀ v ∈ goSplit flags ',', v ≠ RedisMasterRole ∧ v ≠ RedisSlaveRole) →
      (n.SetRole flags).Role = "")
    ∧ (status ≠ RedisLinkStateConnected → status ≠ RedisLinkStateDisconnected →
      (n.SetLinkStatus status).LinkState = "")
    ∧ ((m.SetRole "myself,slave").Role = RedisSlaveRole
        ∧ ((m.SetRole "myself,slave").SetRole "king").Role = "") := by
  refine ⟨?_, ?_, rfl, rfl⟩
  · intro h
    exact setRole_foldl_unrecognized _ "" h
  · intro h1 h2
    show (if status = RedisLinkStateConnected then RedisLinkStateConnected
      else if status = RedisLinkStateDisconnected then RedisLinkStateDisconnected
      else "") = ""
    rw [if_neg h1, if_neg h2]

/-- Witness for claim C8: concrete nodes with previously set fields. -/
theorem setters_reset_witness :
    (({ NewDefaultNode with Role := "slave" } : Node).SetRole "king").Role = ""
    ∧ (({ NewDefaultNode with LinkState := "connected" } : Node).SetLinkStatus
        "blabla").LinkState = ""
    ∧ ((NewDefaultNode.SetRole "myself,slave").SetRole "king").Role = "" :=
  ⟨(setters_reset_before_applying { NewDefaultNode with Role := "slave" }
      NewDefaultNode "king" "blabla").1 (by decide),
   (setters_reset_before_applying { NewDefaultNode with LinkState := "connected" }
      NewDefaultNode "king" "blabla").2.1 (by decide) (by decide),
   (setters_reset_before_applying NewDefaultNode NewDefaultNode "king"
      "blabla").2.2.2⟩

/-- Claim C10: `GetNodeByMasterID` returns the first node whose `MasterReferent`
equals the argument (a replica of that master); when no node replicates
from that id it returns NotFound — even when a node whose own ID equals the
argument is present. -/
theorem getNodeByMasterID_matches_referent : ∀ (n : Nodes) (id : String),
    (∀ nd, n.find? (fun x => decide (x.MasterReferent = id)) = some nd →
      n.GetNodeByMasterID id = .ok nd)
    ∧ ((∀ nd ∈ n, nd.MasterReferent ≠ id) →
      n.GetNodeByMasterID id = .error nodeNotFoundedError)
  | [], id => ⟨by simp, fun _ => rfl⟩
  | x :: xs, id => by
    constructor
    · intro nd hf
      by_cases h : x.MasterReferent = id
      · rw [List.find?_cons_of_pos _ (by simpa using h)] at hf
        cases hf
        show (if x.MasterReferent = id then _ else _) = _
        rw [if_pos h]
      · rw [List.find?_cons_of_neg _ (by simpa using h)] at hf
        show (if x.MasterReferent = id then _ else _) = _
        rw [if_neg h]
        exact (getNodeByMasterID_matches_referent xs id).1 nd hf
    · intro h
      show (if x.MasterReferent = id then _ else _) = _
      rw [if_neg (h x (by simp))]
      exact (getNodeByMasterID_matches_referent xs id).2
        fun nd hnd => h nd (by simp [hnd])

/-- Witness for claim C10: the replica is returned, not the master with that ID, and
a collection holding only a node whose own ID is the argument yields
NotFound. -/
theorem getNodeByMasterID_matches_referent_witness :
    Nodes.GetNodeByMasterID
        [{ NewDefaultNode with ID := "m1" },
         { NewDefaultNode with ID := "s1", MasterReferent := "m1" }] "m1"
      = .ok { NewDefaultNode with ID := "s1", MasterReferent := "m1" }
    ∧ Nodes.GetNodeByMasterID [{ NewDefaultNode with ID := "m1" }] "m1"
      = .error nodeNotFoundedError :=
  ⟨(getNodeByMasterID_matches_referent _ "m1").1 _ (by decide),
   (getNodeByMasterID_matches_referent _ "m1").2 (by decide)⟩

/-- Claim C4, counterexample: a repeated recognized flag is appended once per
occurrence, so the failStatus list can contain duplicates. -/
theorem setFailureStatus_duplicates :
    (NewDefaultNode.SetFailureStatus "fail,fail").FailStatus = ["fail", "fail"]
    ∧ ¬ (NewDefaultNode.SetFailureStatus "fail,fail").FailStatus.Nodup :=
  ⟨by decide, by decide⟩

/-- Claim C4 (amended): every failStatus entry comes from the fixed enumeration
and unrecognized flags are ignored; the entries are exactly the recognized
input flags in input order, hence duplicate-free whenever the input flag
list has no repeats. -/
theorem setFailureStatus_enum (n : Node) (flags : String) :
    (∀ s ∈ (n.SetFailureStatus flags).FailStatus,
        s = NodeStatusFail ∨ s = NodeStatusPFail ∨ s = NodeStatusHandshake ∨
          s = NodeStatusNoAddr ∨ s = NodeStatusNoFlags)
    ∧ ((goSplit flags ',').Nodup → (n.SetFailureStatus flags).FailStatus.Nodup)
    ∧ (n.SetFailureStatus flags).FailStatus = (goSplit flags ',').filter isFailFlag := by
  refine ⟨?_, ?_, rfl⟩
  · intro s hs
    have hflag : isFailFlag s = true := List.of_mem_filter hs
    simpa [isFailFlag] using hflag
  · intro h
    exact h.filter _

/-- Witness for claim C4: a realistic flags string with unrecognized and recognized
flags. -/
theorem setFailureStatus_enum_witness :
    (NewDefaultNode.SetFailureStatus "master,myself,fail,noaddr").FailStatus.Nodup
    ∧ (NewDefaultNode.SetFailureStatus "master,myself,fail,noaddr").FailStatus
      = ["fail", "noaddr"] :=
  ⟨(setFailureStatus_enum NewDefaultNode "master,myself,fail,noaddr").2.1
     (by decide),
   by decide⟩


/-- Claim C2 (divergence witness): the normalizer accepts "1gb" and yields the
byte count, yet `SetConfigIfNeed`'s loop sends the original value because
the normalized value is bound to a shadowed variable; an unparseable value
still skips only its own key. -/
theorem setConfigIfNeed_discards_normalized_value :
    ParseRedisMemConf "1gb" = .ok "1073741824"
    ∧ setConfigCommands [("maxmemory", "1gb")] = [("maxmemory", "1gb")]
    ∧ setConfigCommands [("maxmemory", "notasize"), ("cluster-node-timeout", "15000")]
      = [("cluster-node-timeout", "15000")] :=
  ⟨by decide, by decide, by decide⟩

theorem splitOnChar_ne_nil (sep : Char) : ∀ (cs : List Char), splitOnChar sep cs ≠ []
  | [] => by simp [splitOnChar]
  | c :: cs => by
    simp only [splitOnChar]
    split <;> split <;> simp

theorem splitOnChar_not_mem (sep : Char) : ∀ (cs : List Char), sep ∉ cs →
    splitOnChar sep cs = [cs]
  | [], _ => rfl
  | c :: cs, h => by
    have hc : ¬ c = sep := fun hh => h (by simp [hh])
    have hcs : sep ∉ cs := fun hh => h (by simp [hh])
    simp only [splitOnChar, splitOnChar_not_mem sep cs hcs]
    rw [if_neg hc]

theorem takeWhile_ne_of_not_mem (sep : Char) : ∀ (cs : List Char), sep ∉ cs →
    cs.takeWhile (· ≠ sep) = cs
  | [], _ => rfl
  | c :: cs, h => by
    have hc : c ≠ sep := fun hh => h (by simp [hh])
    have hcs : sep ∉ cs := fun hh => h (by simp [hh])
    rw [List.takeWhile_cons, if_pos (by simpa using hc),
      takeWhile_ne_of_not_mem sep cs hcs]

theorem splitOnChar_mem (sep : Char) : ∀ (cs : List Char), sep ∈ cs →
    splitOnChar sep cs
      = cs.takeWhile (· ≠ sep)
        :: splitOnChar sep ((cs.dropWhile (· ≠ sep)).drop 1)
  | c :: cs, h => by
    by_cases hc : c = sep
    · subst hc
      obtain ⟨w, ws, hw⟩ := List.exists_cons_of_ne_nil (splitOnChar_ne_nil c cs)
      simp only [splitOnChar, hw, if_pos rfl]
      simp [List.takeWhile_cons, List.dropWhile_cons, ← hw]
    · have hcs : sep ∈ cs := by
        rcases List.mem_cons.1 h with h' | h'
        · exact absurd h'.symm hc
        · exact h'
      have IH := splitOnChar_mem sep cs hcs
      simp only [splitOnChar, IH]
      rw [if_neg hc]
      simp [List.takeWhile_cons, List.dropWhile_cons, hc]

theorem splitOnChar_head (sep : Char) (cs : List Char) :
    ∃ ws, splitOnChar sep cs = cs.takeWhile (· ≠ sep) :: ws := by
  by_cases h : sep ∈ cs
  · exact ⟨_, splitOnChar_mem sep cs h⟩
  · exact ⟨[], by rw [splitOnChar_not_mem sep cs h, takeWhile_ne_of_not_mem sep cs h]⟩

theorem stringMk_toList (s : String) : String.mk s.toList = s := rfl

/-- Claim C3, counterexample: on a line whose value contains a further colon, the
decoder keeps only the fragment between the first and second colon; the
first-colon reading required by the claim would keep the whole remainder. -/
theorem decodeClusterInfos_drops_after_second_colon :
    DecodeClusterInfos "cluster_state:ok:extra" = [("cluster_state", "ok")]
    ∧ decodeClusterInfosFirstColon "cluster_state:ok:extra"
      = [("cluster_state", "ok:extra")]
    ∧ ("ok" : String) ≠ "ok:extra" :=
  ⟨by decide, by decide, by decide⟩

/-- Claim C3 (amended): each line containing a ':' maps the text before the first
colon to the text between the first and second colon (dropping anything
after a second colon); lines without a ':' are skipped without error. -/
theorem decodeClusterInfos_amended (input : String) :
    DecodeClusterInfos input = decodeClusterInfosSecondColon input := by
  unfold DecodeClusterInfos decodeClusterInfosSecondColon
  congr 1
  funext m line
  by_cases h : ':' ∈ line.toList
  · obtain ⟨ws, hws⟩ :=
      splitOnChar_head ':' ((line.toList.dropWhile (· ≠ ':')).drop 1)
    have hm := splitOnChar_mem ':' line.toList h
    rw [hws] at hm
    simp only [goSplit, hm, List.map_cons]
    rw [if_neg (by simp), if_pos h]
    simp
  · simp only [goSplit, splitOnChar_not_mem ':' line.toList h, List.map_cons,
      List.map_nil, stringMk_toList]
    rw [if_pos (by simp), if_neg h]


theorem applySlotToken_preserves (node : Node) (tok : String) :
    (applySlotToken node tok).IP = node.IP
    ∧ (applySlotToken node tok).Port = node.Port
    ∧ (applySlotToken node tok).ID = node.ID := by
  unfold applySlotToken
  cases DecodeSlotRange tok with
  | none => exact ⟨rfl, rfl, rfl⟩
  | some v =>
    obtain ⟨s, importing, migrating⟩ := v
    cases importing <;> cases migrating <;> exact ⟨rfl, rfl, rfl⟩

theorem foldl_applySlotToken_preserves :
    ∀ (toks : List String) (node : Node),
      (toks.foldl applySlotToken node).IP = node.IP
      ∧ (toks.foldl applySlotToken node).Port = node.Port
      ∧ (toks.foldl applySlotToken node).ID = node.ID
  | [], node => ⟨rfl, rfl, rfl⟩
  | t :: ts, node => by
    simp only [List.foldl_cons]
    obtain ⟨h1, h2, h3⟩ := applySlotToken_preserves node t
    obtain ⟨g1, g2, g3⟩ := foldl_applySlotToken_preserves ts (applySlotToken node t)
    exact ⟨g1.trans h1, g2.trans h2, g3.trans h3⟩

theorem buildNode_addr_failure (values : List String)
    (haddr : splitHostPort
      ((goSplit (values.getD 1 "") '@').getD 0 "").toList = none) :
    (buildNode values).IP = "" ∧ (buildNode values).Port = DefaultRedisPort
    ∧ (buildNode values).ID = values.getD 0 "" := by
  unfold buildNode
  simp only [haddr]
  refine ⟨?_, ?_, ?_⟩
  · rw [(foldl_applySlotToken_preserves _ _).1]
    cases parseInt64 (values.getD 4 "") <;>
      cases parseInt64 (values.getD 5 "") <;>
      cases parseInt64 (values.getD 6 "") <;>
      simp [Node.SetLinkStatus, Node.SetRole, Node.SetFailureStatus,
        Node.SetReferentMaster, NewDefaultNode, apply_ite Node.IP]
  · rw [(foldl_applySlotToken_preserves _ _).2.1]
    cases parseInt64 (values.getD 4 "") <;>
      cases parseInt64 (values.getD 5 "") <;>
      cases parseInt64 (values.getD 6 "") <;>
      simp [Node.SetLinkStatus, Node.SetRole, Node.SetFailureStatus,
        Node.SetReferentMaster, NewDefaultNode, apply_ite Node.Port]
  · rw [(foldl_applySlotToken_preserves _ _).2.2]
    cases parseInt64 (values.getD 4 "") <;>
      cases parseInt64 (values.getD 5 "") <;>
      cases parseInt64 (values.getD 6 "") <;>
      simp [Node.SetLinkStatus, Node.SetRole, Node.SetFailureStatus,
        Node.SetReferentMaster, NewDefaultNode, apply_ite Node.ID]


theorem decodeNodeInfos_foldl :
    ∀ (lines : List String) (acc : Nodes),
      lines.foldl (fun nodes line =>
        match decodeNodeLine line with
        | some node => nodes ++ [node]
        | none => nodes) acc
      = acc ++ lines.filterMap decodeNodeLine
  | [], acc => by simp
  | l :: ls, acc => by
    simp only [List.foldl_cons, List.filterMap_cons]
    cases h : decodeNodeLine l with
    | none => simp [decodeNodeInfos_foldl ls acc]
    | some node => simp [decodeNodeInfos_foldl ls (acc ++ [node])]

theorem splitOnChar_append_sep (sep : Char) :
    ∀ (w rest : List Char), sep ∉ w →
      splitOnChar sep (w ++ sep :: rest) = w :: splitOnChar sep rest
  | [], rest, _ => by
    simp only [List.nil_append, splitOnChar]
    obtain ⟨x, xs, hx⟩ := List.exists_cons_of_ne_nil (splitOnChar_ne_nil sep rest)
    rw [hx]
    simp
  | c :: w, rest, h => by
    have hc : ¬ c = sep := fun hh => h (by simp [hh])
    have hw : sep ∉ w := fun hh => h (by simp [hh])
    simp only [List.cons_append, splitOnChar, List.append_eq,
      splitOnChar_append_sep sep w rest hw]
    rw [if_neg hc]

theorem string_toList_append (a b : String) :
    (a ++ b).toList = a.toList ++ b.toList := rfl

theorem goSplit_joinSep (sep : Char) :
    ∀ (ls : List String), ls ≠ [] → (∀ l ∈ ls, sep ∉ l.toList) →
      goSplit (joinSep sep ls) sep = ls
  | [s], _, h => by
    simp only [joinSep, goSplit]
    rw [splitOnChar_not_mem sep s.toList (h s (by simp))]
    simp [stringMk_toList]
  | s :: s2 :: rest, _, h => by
    have hjoin : (joinSep sep (s :: s2 :: rest)).toList
        = s.toList ++ sep :: (joinSep sep (s2 :: rest)).toList := by
      show (s ++ String.mk [sep] ++ joinSep sep (s2 :: rest)).toList = _
      rw [string_toList_append, string_toList_append]
      simp [stringMk_toList]
    have IH := goSplit_joinSep sep (s2 :: rest) (by simp)
      fun l hl => h l (by simp [hl])
    simp only [goSplit] at IH ⊢
    rw [hjoin, splitOnChar_append_sep sep _ _ (h s (by simp)),
      List.map_cons, stringMk_toList, IH]

/-- Claim C9: on a CLUSTER NODES line with at least 8 fields whose address fails
host:port parsing (after splitting on '@'), the node is still produced —
with an empty IP, the default port, and its ID set from the line — and
every other line is decoded exactly as it would be on its own. -/
theorem decodeNodeInfos_addr_parse_failure (pre post : List String)
    (line : String)
    (hpre : ∀ l ∈ pre, '\n' ∉ l.toList)
    (hline : '\n' ∉ line.toList)
    (hpost : ∀ l ∈ post, '\n' ∉ l.toList)
    (hlen : 8 ≤ (goSplit line ' ').length)
    (haddr : splitHostPort
      ((goSplit ((goSplit line ' ').getD 1 "") '@').getD 0 "").toList = none) :
    DecodeNodeInfos (joinSep '\n' (pre ++ line :: post))
      = pre.filterMap decodeNodeLine
        ++ buildNode (goSplit line ' ') :: post.filterMap decodeNodeLine
    ∧ (buildNode (goSplit line ' ')).IP = ""
    ∧ (buildNode (goSplit line ' ')).Port = DefaultRedisPort
    ∧ (buildNode (goSplit line ' ')).ID = (goSplit line ' ').getD 0 "" := by
  obtain ⟨hip, hport, hid⟩ := buildNode_addr_failure (goSplit line ' ') haddr
  refine ⟨?_, hip, hport, hid⟩
  have hmem : ∀ l ∈ pre ++ line :: post, '\n' ∉ l.toList := by
    intro l hl
    rcases List.mem_append.1 hl with hl | hl
    · exact hpre l hl
    · rcases List.mem_cons.1 hl with rfl | hl
      · exact hline
      · exact hpost l hl
  have hline8 : decodeNodeLine line = some (buildNode (goSplit line ' ')) := by
    unfold decodeNodeLine
    rw [if_neg (by omega)]
  unfold DecodeNodeInfos
  rw [goSplit_joinSep '\n' (pre ++ line :: post) (by simp) hmem,
    decodeNodeInfos_foldl, List.nil_append, List.filterMap_append,
    List.filterMap_cons, hline8]

/-- Witness for claim C9: a concrete two-line input whose second line has an
unparseable address; both nodes are produced and the bad-address node keeps
an empty IP and the default port. -/
theorem decodeNodeInfos_addr_parse_failure_witness :
    DecodeNodeInfos
        "id1 1.2.3.4:6379@16379 master - 0 0 1 connected\nid2 badaddr slave id1 0 0 1 connected"
      = [{ NewDefaultNode with
            ID := "id1", IP := "1.2.3.4", Port := "6379", Role := "master",
            LinkState := "connected", ConfigEpoch := 1 },
         { NewDefaultNode with
            ID := "id2", Role := "slave", MasterReferent := "id1",
            LinkState := "connected", ConfigEpoch := 1 }] := by
  have h := decodeNodeInfos_addr_parse_failure
    ["id1 1.2.3.4:6379@16379 master - 0 0 1 connected"] []
    "id2 badaddr slave id1 0 0 1 connected"
    (by decide) (by decide) (by decide) (by decide) (by decide)
  have hj : joinSep '\n'
      (["id1 1.2.3.4:6379@16379 master - 0 0 1 connected"]
        ++ "id2 badaddr slave id1 0 0 1 connected" :: [])
      = "id1 1.2.3.4:6379@16379 master - 0 0 1 connected\nid2 badaddr slave id1 0 0 1 connected" := by
    decide
  rw [hj] at h
  exact h.1.trans (by decide)

end Redisutil
